import Mathlib

/-!
Verification development for the storyboard persistence core.

JavaScript strings are modelled as lists of characters (`Str`), binary
objects (`Blob` contents) as lists of byte values (`Bytes`).  The functions
are shallow embeddings of the corresponding functions in `src/services/db.ts`,
`src/App.tsx` and the `CameraGizmo` component; asynchronous effects
(`fetch` of a `blob:` URL, `URL.createObjectURL`, IndexedDB transactions,
`localStorage`) are made explicit as environment parameters and state.
-/

set_option autoImplicit false

namespace Storyboard

/-- Byte values of a binary object (a `Blob`'s contents). -/
abbrev Bytes := List Nat

/-- A JavaScript string, modelled as its list of characters. -/
abbrev Str := List Char

/-- The characters of the scheme marker `blob:`. -/
def blobMark : Str := ("blob:".data)

/-- The characters of the scheme marker `data:`. -/
def dataMark : Str := ("data:".data)

/-- Model of JavaScript `s.startsWith(p)`. -/
def strStartsWith (s p : Str) : Bool := p.isPrefixOf s

/-- True when the string is a `blob:` object URL (a resource handle). -/
def isBlobUrl (s : Str) : Bool := strStartsWith s blobMark

/-- True when the string is a `data:` URI (a self-describing encoded image). -/
def isDataUrl (s : Str) : Bool := strStartsWith s dataMark

/-! ## Binary codec (`base64ToBlob` in `src/services/db.ts`) -/

/-- Value of a base64 alphabet character, `none` for characters outside the
alphabet.  Mirrors the alphabet accepted by JavaScript `atob`. -/
def base64Index (c : Char) : Option Nat :=
  if ('A' ≤ c ∧ c ≤ 'Z') then some (c.toNat - 65)
  else if ('a' ≤ c ∧ c ≤ 'z') then some (c.toNat - 97 + 26)
  else if ('0' ≤ c ∧ c ≤ '9') then some (c.toNat - 48 + 52)
  else if c = '+' then some 62
  else if c = '/' then some 63
  else none

/-- Pack a stream of 6-bit values into bytes, dropping leftover bits, as the
base64 decode step does. -/
def b64DecodeAux : List Nat → Nat → Nat → Bytes
  | [], _, _ => []
  | v :: vs, acc, nbits =>
    let acc2 := acc * 64 + v
    let nbits2 := nbits + 6
    if 8 ≤ nbits2 then
      (acc2 / 2 ^ (nbits2 - 8)) % 256 :: b64DecodeAux vs (acc2 % 2 ^ (nbits2 - 8)) (nbits2 - 8)
    else
      b64DecodeAux vs acc2 nbits2

/-- ASCII whitespace, stripped by the forgiving-base64 algorithm of `atob`. -/
def isB64Space (c : Char) : Bool :=
  c = ' ' ∨ c = '\t' ∨ c = '\n' ∨ c = '\x0c' ∨ c = '\r'

/-- Remove up to two trailing padding characters. -/
def stripPad (cs : Str) : Str :=
  let c1 := if cs.getLast? = some '=' then cs.dropLast else cs
  if c1.getLast? = some '=' then c1.dropLast else c1

/-- Model of JavaScript `atob` (the forgiving-base64 decoder): strip ASCII
whitespace, strip up to two `=` of padding when the length is a multiple of
four, fail on a remainder of one or on characters outside the alphabet,
otherwise decode.  `none` models the `InvalidCharacterError` throw. -/
def atobStr (s : Str) : Option Bytes :=
  let data0 := s.filter (fun c => ¬ isB64Space c)
  let data1 := if data0.length % 4 = 0 then stripPad data0 else data0
  if data1.length % 4 = 1 then none
  else
    match data1.mapM base64Index with
    | none => none
    | some vals => some (b64DecodeAux vals 0 0)

/-- Model of JavaScript `s.split(',')[1]`: the segment of `s` between the
first and second comma (to the end of the string when there is no second
comma).  Only used when `s` contains a comma, where `[1]` is in range. -/
def splitSecond (cs : Str) : Str :=
  (((cs.dropWhile (fun c => c ≠ ',')).drop 1).takeWhile (fun c => c ≠ ','))

/-- `base64ToBlob` from `src/services/db.ts`, returning the byte contents of
the produced `Blob`: when the input contains a comma the payload is
`split(',')[1]`, otherwise the whole input; a failing `atob` is caught and an
empty `Blob` is returned. -/
def base64ToBlob (base64 : Str) : Bytes :=
  let base64Data := if base64.contains ',' then splitSecond base64 else base64
  match atobStr base64Data with
  | some bs => bs
  | none => []

/-! ## The Shot data model (`src/types.ts`, `INITIAL_SHOT` in `src/App.tsx`) -/

/-- Camera parameters of a shot.  Numbers are modelled as rationals. -/
structure CameraParams where
  azimuth : ℚ
  elevation : ℚ
  distance : ℚ
  deriving DecidableEq, Repr

/-- An image-bearing field value of a durable (database) shot: either still a
string (an unconverted URL or encoded image) or a raw binary object. -/
inductive ImgVal where
  | str (s : Str)
  | blob (b : Bytes)
  deriving DecidableEq, Repr

/-- True exactly on raw binary objects. -/
def ImgVal.isBlob : ImgVal → Bool
  | .str _ => false
  | .blob _ => true

/-- A Shot record, generic over the type of its image-bearing fields: `Str`
for the live form (object URLs / data URIs), `ImgVal` for the durable form. -/
structure ShotG (α : Type) where
  id : Str
  name : Str
  script : Str
  enhancedScript : Str
  aiPromptEn : Str
  aiPromptCn : Str
  aspectRatio : Str
  imageUrl : Option α
  versions : List α
  referenceImages : List α
  isGenerating : Bool
  cameraParams : CameraParams
  seed : Int
  model : Str
  isGrid : Bool
  deriving DecidableEq, Repr

/-- A live shot, whose image fields are strings (object URLs / data URIs). -/
abbrev Shot := ShotG Str

/-- A durable shot, as stored in the database. -/
abbrev DurableShot := ShotG ImgVal

/-! ## Shot serializer (`serializeShotForDB` in `src/services/db.ts`)

The environment `ρ` models `fetch` of a `blob:` object URL followed by
`.blob()`: it returns the bytes backing the URL, or `none` when the fetch
throws (a revoked or foreign URL).  Each conversion site wraps the fetch in
`try/catch` and leaves the field unconverted on failure. -/

/-- Conversion applied to `imageUrl` and to each element of `versions`:
a `blob:` URL is fetched and replaced by its raw binary object (left
unchanged when the fetch fails); every other string is left unchanged. -/
def serializeImage (ρ : Str → Option Bytes) (v : Str) : ImgVal :=
  if isBlobUrl v then
    match ρ v with
    | some b => .blob b
    | none => .str v
  else .str v

/-- Conversion applied to each element of `referenceImages`: as
`serializeImage`, except that a `data:` URI (a fresh upload never minted as a
handle) is decoded through `base64ToBlob` into a raw binary object. -/
def serializeRef (ρ : Str → Option Bytes) (v : Str) : ImgVal :=
  if isBlobUrl v then
    match ρ v with
    | some b => .blob b
    | none => .str v
  else if isDataUrl v then .blob (base64ToBlob v)
  else .str v

/-- `serializeShotForDB`: copy the shot and convert its three image-bearing
positions.  The source guards the array conversions with `length > 0`, which
coincides with mapping over the (possibly empty) arrays, and guards
`imageUrl` with JavaScript truthiness, which only skips strings that do not
carry the `blob:` marker anyway. -/
def serializeShotForDB (ρ : Str → Option Bytes) (shot : Shot) : DurableShot :=
  { id := shot.id
    name := shot.name
    script := shot.script
    enhancedScript := shot.enhancedScript
    aiPromptEn := shot.aiPromptEn
    aiPromptCn := shot.aiPromptCn
    aspectRatio := shot.aspectRatio
    imageUrl := shot.imageUrl.map (serializeImage ρ)
    versions := shot.versions.map (serializeImage ρ)
    referenceImages := shot.referenceImages.map (serializeRef ρ)
    isGenerating := shot.isGenerating
    cameraParams := shot.cameraParams
    seed := shot.seed
    model := shot.model
    isGrid := shot.isGrid }

/-! ## Shot deserializer (`deserializeShotFromDB` in `src/services/db.ts`)

`URL.createObjectURL` mints a fresh process-local object URL for a binary
object.  The mint state carries a counter and the table of minted URLs; the
name of the `n`-th minted URL is an injective function of `n`, modelling the
freshness of object URLs. -/

/-- The object URL produced by the `n`-th call to `URL.createObjectURL`. -/
def mintName (n : Nat) : Str := blobMark ++ List.replicate n 'm'

/-- State of the object URL registry: how many URLs were minted so far, and
the table mapping each minted URL to the bytes of its binary object. -/
structure MintSt where
  ctr : Nat
  tbl : List (Str × Bytes)
  deriving DecidableEq, Repr

/-- Resolve an object URL against the registry, newest entry first. -/
def resolveSt (st : MintSt) (u : Str) : Option Bytes :=
  (st.tbl.find? (fun p => p.1 == u)).map (fun p => p.2)

/-- Convert one durable image value back to a live string: a raw binary
object is minted into a fresh object URL, a string is kept as is. -/
def mintOne : ImgVal → MintSt → Str × MintSt
  | .str s, st => (s, st)
  | .blob b, st => (mintName st.ctr, ⟨st.ctr + 1, (mintName st.ctr, b) :: st.tbl⟩)

/-- Convert a list of durable image values, threading the registry. -/
def mintList : List ImgVal → MintSt → List Str × MintSt
  | [], st => ([], st)
  | v :: vs, st =>
    let p := mintOne v st
    let q := mintList vs p.2
    (p.1 :: q.1, q.2)

/-- Convert an optional durable image value. -/
def mintOpt : Option ImgVal → MintSt → Option Str × MintSt
  | none, st => (none, st)
  | some v, st =>
    let p := mintOne v st
    (some p.1, p.2)

/-- `deserializeShotFromDB`: copy the durable shot and turn each raw binary
object back into a freshly minted object URL, processing `imageUrl`, then
`versions`, then `referenceImages`, in source order. -/
def deserializeShotFromDB (d : DurableShot) (st : MintSt) : Shot × MintSt :=
  let pi := mintOpt d.imageUrl st
  let pv := mintList d.versions pi.2
  let pr := mintList d.referenceImages pv.2
  (⟨d.id, d.name, d.script, d.enhancedScript, d.aiPromptEn, d.aiPromptCn,
    d.aspectRatio, pi.1, pv.1, pr.1, d.isGenerating, d.cameraParams,
    d.seed, d.model, d.isGrid⟩, pr.2)

/-! ## Persistent store (`saveShotsToDB` / `loadShotsFromDB`)

The object store keyed by `id` is modelled as a list of rows; `store.put`
upserts by key.  An IndexedDB `readwrite` transaction applies all of its
requests atomically: `tx.oncomplete` fires after every `put` succeeded, and
`tx.onerror`/abort rolls back every request of the transaction.
`saveShotsToDB` serializes every shot first, then issues all `put` requests
inside one transaction, so a commit applies all rows and a failure (the
`commitOk` flag) leaves the store untouched. -/

/-- One row store, keyed by `id` (`keyPath: "id"`). -/
abbrev Store := List DurableShot

/-- `store.put`: replace the row with the same key, or append a new row. -/
def putRow (st : Store) (row : DurableShot) : Store :=
  if st.any (fun r => r.id == row.id) then
    st.map (fun r => if r.id == row.id then row else r)
  else st ++ [row]

/-- Look up a row by key. -/
def lookupRow (st : Store) (u : Str) : Option DurableShot :=
  st.find? (fun r => r.id == u)

/-- `saveShotsToDB`: serialize every shot (outside the transaction), then
commit all rows in one transaction.  Returns the success flag (`true` models
`tx.oncomplete`, `false` models `tx.onerror` with the rejected promise) and
the resulting store contents. -/
def saveShotsToDB (ρ : Str → Option Bytes) (commitOk : Bool) (shots : List Shot)
    (st : Store) : Bool × Store :=
  let rows := shots.map (serializeShotForDB ρ)
  if commitOk then (true, rows.foldl putRow st) else (false, st)

/-- `store.getAll()`: every row currently stored. -/
def getAll (st : Store) : List DurableShot := st

/-! ## Migration service (`migrateFromLocalStorage` in `src/services/db.ts`) -/

/-- The storage visible to the migration: the legacy `localStorage` key
`ai-storyboard-shots` and the IndexedDB store. -/
structure AppStorage where
  ls : Option Str
  db : Store
  deriving DecidableEq, Repr

/-- `migrateFromLocalStorage`: when the legacy key holds data, parse it
(`parse` models `JSON.parse`, `none` being a throw), write it through
`saveShotsToDB`, and remove the key; every failure is caught, leaving the
storage as it was.  Returns the new storage and the function's return value
(`none` models `null`). -/
def migrateFromLocalStorage (parse : Str → Option (List Shot))
    (ρ : Str → Option Bytes) (commitOk : Bool) (st : AppStorage) :
    AppStorage × Option (List Shot) :=
  match st.ls with
  | none => (st, none)
  | some lsData =>
    match parse lsData with
    | none => (st, none)
    | some parsed =>
      let r := saveShotsToDB ρ commitOk parsed st.db
      if r.1 then ({ ls := none, db := r.2 }, some parsed)
      else (st, none)

/-! ## Autosave scheduler (DB persistence effect in `src/App.tsx`)

The effect runs on every change of `shots`: its cleanup clears the previous
timer and a new 1-second timer is armed.  The run function consumes the
mutation timestamps in ascending order carrying the armed timer's deadline;
a timer fires (one `saveShotsToDB` commit) exactly when its deadline passes
before the next mutation re-arms it. -/

/-- Process the mutation timestamps; `pending` is the deadline of the armed
timer.  Produces the list of commit times. -/
def debounceRun (quiet : ℚ) : List ℚ → Option ℚ → List ℚ
  | [], none => []
  | [], some d => [d]
  | t :: ts, none => debounceRun quiet ts (some (t + quiet))
  | t :: ts, some d =>
    if d < t then d :: debounceRun quiet ts (some (t + quiet))
    else debounceRun quiet ts (some (t + quiet))

/-- Commit times produced by the autosave effect for the given ascending
mutation timestamps, starting with no timer armed. -/
def debounceCommits (quiet : ℚ) (muts : List ℚ) : List ℚ :=
  debounceRun quiet muts none

/-! ## Camera parameter updates (`CameraGizmo`)

Real-number operations of the handlers are embedded over rationals;
`Math.atan2(dy / ellipseYScale, dx) * (180 / Math.PI)`, whose value ranges
over `(-180, 180]`, is passed as the parameter `a` of the azimuth handler,
and the value of `Math.sqrt` in the distance handler is passed as the
parameter `dist`. -/

/-- JavaScript `Math.round`: round half toward positive infinity. -/
def jsRound (x : ℚ) : ℤ := ⌊x + 1 / 2⌋

/-- JavaScript `%` on the nonnegative operands used here. -/
def jsMod (x y : ℚ) : ℚ := x - y * ⌊x / y⌋

/-- `toFixed(2)` followed by `parseFloat`: round to two decimal places. -/
def round2 (x : ℚ) : ℚ := ((⌊100 * x + 1 / 2⌋ : ℤ) : ℚ) / 100

/-- The azimuth drag handler: `a` is the value of
`Math.atan2(dy / ellipseYScale, dx) * (180 / Math.PI)`. -/
def gizmoAzimuth (p : CameraParams) (a : ℚ) : CameraParams :=
  let angle0 := 90 - a
  let angle1 := if angle0 < 0 then angle0 + 360 else angle0
  let angle2 := jsMod (angle1 + 90) 360
  { p with azimuth := ((jsRound angle2 : ℤ) : ℚ) }

/-- The elevation drag handler, from the mouse `y` coordinate:
`deltaY = groundY - y`, `el = deltaY / (baseRadius * 1.5) * 90`, then
`Math.max(-30, Math.min(90, Math.round(el)))`. -/
def gizmoElevation (p : CameraParams) (y : ℚ) : CameraParams :=
  let deltaY := 130 - y
  let el := deltaY / 120 * 90
  { p with elevation := max (-30) (min 90 ((jsRound el : ℤ) : ℚ)) }

/-- The distance drag handler: `dist` is the value of the `Math.sqrt`
expression (hence nonnegative); `Math.max(0.5, Math.min(2.0, dist / 80))`
then `parseFloat(toFixed(2))`. -/
def gizmoDistance (p : CameraParams) (dist : ℚ) : CameraParams :=
  let newDist := max (1 / 2) (min 2 (dist / 80))
  { p with distance := round2 newDist }

/-- The azimuth range slider (`min="0" max="360"`). -/
def sliderAzimuth (p : CameraParams) (v : ℚ) : CameraParams :=
  { p with azimuth := v }

/-- The elevation range slider (`min="-30" max="90"`). -/
def sliderElevation (p : CameraParams) (v : ℚ) : CameraParams :=
  { p with elevation := v }

/-- The distance range slider (`min="0.5" max="2.0" step="0.1"`). -/
def sliderDistance (p : CameraParams) (v : ℚ) : CameraParams :=
  { p with distance := v }

/-! ## Handle release on deletion (`src/App.tsx`) -/

/-- `revokeShotResources`: the sequence of `URL.revokeObjectURL` calls made
for a shot — its `imageUrl` when it is a `blob:` URL, then every `blob:`
element of `versions`, then every `blob:` element of `referenceImages`. -/
def revokeShotResources (shot : Shot) : List Str :=
  (match shot.imageUrl with
   | some u => if isBlobUrl u then [u] else []
   | none => []) ++
  shot.versions.filter isBlobUrl ++
  shot.referenceImages.filter isBlobUrl

/-- `handleDeleteShot`: refuse to delete the last shot; otherwise revoke the
resources of the shot with the given id (when found) and remove it from the
list.  Returns the revoked URLs and the new list. -/
def handleDeleteShot (shots : List Shot) (i : Str) : List Str × List Shot :=
  if shots.length = 1 then ([], shots)
  else
    let released :=
      match shots.find? (fun s => s.id == i) with
      | some shotToDelete => revokeShotResources shotToDelete
      | none => []
    (released, shots.filter (fun s => ¬ s.id == i))

/-- The index filter `versions.filter((_, idx) => idx !== i)`, with `j` the
index of the head of the remaining list. -/
def filterIdxNe : List Str → Nat → Nat → List Str
  | [], _, _ => []
  | x :: xs, j, i =>
    if j = i then filterIdxNe xs (j + 1) i else x :: filterIdxNe xs (j + 1) i

/-- `handleDeleteVersion` on the current shot, for index `i` into
`versions`: revoke the deleted version's URL when it is a `blob:` URL,
remove the element at index `i`, and reassign `imageUrl` to the last
remaining version (or clear it) when it was the deleted version.  Returns
the revoked URLs and the updated shot. -/
def handleDeleteVersion (shot : Shot) (i : Nat) : List Str × Shot :=
  let versionToDelete := shot.versions.getD i []
  let released := if isBlobUrl versionToDelete then [versionToDelete] else []
  let newVersions := filterIdxNe shot.versions 0 i
  let newImageUrl :=
    match shot.imageUrl with
    | some u => if u = versionToDelete then newVersions.getLast? else some u
    | none => none
  (released, { shot with versions := newVersions, imageUrl := newImageUrl })

/-! ## Example records reused by concrete witnesses -/

/-- The camera parameters of `INITIAL_SHOT`. -/
def blankCamera : CameraParams := ⟨0, 0, 1⟩

/-- A shot with no images, used as a base for concrete examples. -/
def blankShot : Shot :=
  { id := ("shot-1".data)
    name := ("Shot 01".data)
    script := []
    enhancedScript := []
    aiPromptEn := []
    aiPromptCn := []
    aspectRatio := ("16:9".data)
    imageUrl := none
    versions := []
    referenceImages := []
    isGenerating := false
    cameraParams := blankCamera
    seed := 1
    model := ("model-a".data)
    isGrid := false }

/-! ## Lemmas about the binary codec -/

theorem contains_iff_mem (s : Str) (c : Char) : s.contains c = true ↔ c ∈ s :=
  List.elem_iff

theorem dropWhile_no_comma (h p : Str) (hh : ¬ ',' ∈ h) :
    (h ++ ',' :: p).dropWhile (fun c => c ≠ ',') = ',' :: p := by
  induction h with
  | nil => simp [List.dropWhile]
  | cons c cs ih =>
    have hc : c ≠ ',' := fun e => hh (e ▸ List.mem_cons_self _ _)
    have hh2 : ¬ ',' ∈ cs := fun m => hh (List.mem_cons_of_mem _ m)
    simpa [List.dropWhile_cons, hc] using ih hh2

theorem takeWhile_no_comma (p : Str) (hp : ¬ ',' ∈ p) :
    p.takeWhile (fun c => c ≠ ',') = p := by
  induction p with
  | nil => rfl
  | cons c cs ih =>
    have hc : c ≠ ',' := fun e => hp (e ▸ List.mem_cons_self _ _)
    have hp2 : ¬ ',' ∈ cs := fun m => hp (List.mem_cons_of_mem _ m)
    rw [List.takeWhile_cons_of_pos (by simpa using hc), ih hp2]

theorem splitSecond_append (h p : Str) (hh : ¬ ',' ∈ h) (hp : ¬ ',' ∈ p) :
    splitSecond (h ++ ',' :: p) = p := by
  unfold splitSecond
  rw [dropWhile_no_comma h p hh]
  simpa using takeWhile_no_comma p hp

/-- Claim C4: `base64ToBlob` accepts both a bare base64 payload and one
prefixed with a media-type header, stripping the part up to and including
the comma when present, and on invalid (non-base64) input it returns an
empty binary object instead of propagating the `atob` error. -/
theorem c4_codec_header_and_errors :
    (∀ s bs, ¬ ',' ∈ s → atobStr s = some bs → base64ToBlob s = bs) ∧
    (∀ h p, ¬ ',' ∈ h → ¬ ',' ∈ p →
      base64ToBlob (h ++ ',' :: p) = base64ToBlob p) ∧
    (∀ s, ¬ ',' ∈ s → atobStr s = none → base64ToBlob s = []) := by
  refine ⟨?_, ?_, ?_⟩
  · intro s bs hc ha
    have hb : ¬ (s.contains ',' = true) := fun h => hc ((contains_iff_mem s ',').mp h)
    unfold base64ToBlob
    rw [if_neg hb]
    simp [ha]
  · intro h p hh hp
    have hb1 : (h ++ ',' :: p).contains ',' = true :=
      (contains_iff_mem _ ',').mpr (by simp)
    have hb2 : ¬ (p.contains ',' = true) := fun hx => hp ((contains_iff_mem p ',').mp hx)
    unfold base64ToBlob
    rw [if_pos hb1, if_neg hb2, splitSecond_append h p hh hp]
  · intro s hc ha
    have hb : ¬ (s.contains ',' = true) := fun h => hc ((contains_iff_mem s ',').mp h)
    unfold base64ToBlob
    rw [if_neg hb]
    simp [ha]

/-- Witness for C4 at concrete inputs: a bare payload decodes, a data-URI
header is stripped, and an invalid payload yields the empty binary. -/
theorem c4_codec_witness :
    base64ToBlob (("QUJD".data)) = [65, 66, 67] ∧
    base64ToBlob (("data:image/png;base64".data) ++ ',' :: ("QQ==".data)) =
      base64ToBlob (("QQ==".data)) ∧
    base64ToBlob (("!!".data)) = [] :=
  ⟨c4_codec_header_and_errors.1 _ _ (by decide) (by decide),
   c4_codec_header_and_errors.2.1 _ _ (by decide) (by decide),
   c4_codec_header_and_errors.2.2 _ (by decide) (by decide)⟩

/-- Claim C5: the autosave effect is a pure debounce with a one-second quiet
period: mutations at `t, t+0.2, t+0.4` produce exactly one commit, at
`t+0.4+1`; mutations at `t` and `t+2` produce exactly two commits; and a
second mutation arriving inside the quiet period of the first restarts the
timer (the only commit is at the second mutation plus the quiet period). -/
theorem c5_debounce_pure (t t1 t2 : ℚ) (_h1 : t1 ≤ t2) (h2 : t2 < t1 + 1) :
    debounceCommits 1 [t, t + 1 / 5, t + 2 / 5] = [t + 2 / 5 + 1] ∧
    debounceCommits 1 [t, t + 2] = [t + 1, t + 3] ∧
    debounceCommits 1 [t1, t2] = [t2 + 1] := by
  refine ⟨?_, ?_, ?_⟩ <;> simp only [debounceCommits, debounceRun]
  · rw [if_neg (by linarith), if_neg (by linarith)]
  · rw [if_pos (by linarith)]
    have h3 : t + 2 + 1 = t + 3 := by ring
    rw [h3]
  · rw [if_neg (by linarith)]

/-- Witness for C5 at `t = 0`, with the restarting pair `0, 1/2`. -/
theorem c5_debounce_witness :
    debounceCommits 1 [0, 0 + 1 / 5, 0 + 2 / 5] = [0 + 2 / 5 + 1] ∧
    debounceCommits 1 [0, 0 + 2] = [0 + 1, 0 + 3] ∧
    debounceCommits 1 [0, 1 / 2] = [1 / 2 + 1] :=
  c5_debounce_pure 0 0 (1 / 2) (by norm_num) (by norm_num)

/-- Claim C7 counterexample: a shot persisted while `isGenerating = true`
deserializes with `isGenerating = true`, not `false` — neither
`serializeShotForDB` nor `deserializeShotFromDB` resets the flag. -/
theorem c7_counterexample :
    (deserializeShotFromDB
      (serializeShotForDB (fun _ => none) { blankShot with isGenerating := true })
      ⟨0, []⟩).1.isGenerating = true := by
  rfl

/-- Claim C7 (amended): the durable round trip preserves `isGenerating`
verbatim, so a reloaded shot has `isGenerating = false` exactly when it was
`false` at the time it was persisted. -/
theorem c7_isGenerating_roundtrip (ρ : Str → Option Bytes) (shot : Shot)
    (st : MintSt) :
    (deserializeShotFromDB (serializeShotForDB ρ shot) st).1.isGenerating =
      shot.isGenerating := by
  rfl

/-! ## Camera bounds (C8) -/

theorem jsMod_nonneg_lt (x y : ℚ) (hy : 0 < y) : 0 ≤ jsMod x y ∧ jsMod x y < y := by
  have hyne : y ≠ 0 := ne_of_gt hy
  have h : jsMod x y = y * Int.fract (x / y) := by
    unfold jsMod Int.fract
    field_simp
  refine ⟨?_, ?_⟩
  · rw [h]
    exact mul_nonneg hy.le (Int.fract_nonneg _)
  · rw [h]
    calc y * Int.fract (x / y) < y * 1 :=
          mul_lt_mul_of_pos_left (Int.fract_lt_one _) hy
      _ = y := mul_one y

/-- Claim C8 counterexample: the azimuth slider's range is `0..360`
inclusive, so slider value `360` (a legal slider position) sets
`azimuth = 360`, violating `azimuth ∈ [0, 360)`; the azimuth drag handler
can also produce exactly `360` by rounding, at an `atan2` angle of
`-179.7` degrees. -/
theorem c8_counterexample :
    (sliderAzimuth blankCamera 360).azimuth = 360 ∧
    ¬ (sliderAzimuth blankCamera 360).azimuth < 360 ∧
    (gizmoAzimuth blankCamera (-1797 / 10)).azimuth = 360 := by
  refine ⟨rfl, ?_, ?_⟩
  · simp only [sliderAzimuth]
    exact lt_irrefl _
  · simp only [gizmoAzimuth]
    rw [if_neg (by norm_num)]
    have hmod : jsMod ((90 : ℚ) - -1797 / 10 + 90) 360 = 3597 / 10 := by
      unfold jsMod
      have hf : ⌊((90 : ℚ) - -1797 / 10 + 90) / 360⌋ = 0 := by
        rw [Int.floor_eq_iff]
        norm_num
      rw [hf]
      norm_num
    rw [hmod]
    have hr : jsRound ((3597 : ℚ) / 10) = 360 := by
      unfold jsRound
      rw [Int.floor_eq_iff]
      norm_num
    rw [hr]
    norm_num

/-- Claim C8 (amended): every camera update keeps `elevation ∈ [-30, 90]`
and `distance ∈ [0.5, 2.0]` as stated, but azimuth satisfies only the
closed bound `azimuth ∈ [0, 360]`: the slider's inclusive maximum and the
drag handler's rounding can both produce exactly `360`.  Slider values are
constrained to the `min`/`max` attributes of their inputs; the drag
handlers' bounds hold for every mouse position. -/
theorem c8_camera_bounds (p : CameraParams) (a y dist v1 v2 v3 : ℚ)
    (hv1a : 0 ≤ v1) (hv1b : v1 ≤ 360)
    (hv2a : -30 ≤ v2) (hv2b : v2 ≤ 90)
    (hv3a : 1 / 2 ≤ v3) (hv3b : v3 ≤ 2) :
    (0 ≤ (gizmoAzimuth p a).azimuth ∧ (gizmoAzimuth p a).azimuth ≤ 360) ∧
    (-30 ≤ (gizmoElevation p y).elevation ∧ (gizmoElevation p y).elevation ≤ 90) ∧
    (1 / 2 ≤ (gizmoDistance p dist).distance ∧ (gizmoDistance p dist).distance ≤ 2) ∧
    (0 ≤ (sliderAzimuth p v1).azimuth ∧ (sliderAzimuth p v1).azimuth ≤ 360) ∧
    (-30 ≤ (sliderElevation p v2).elevation ∧ (sliderElevation p v2).elevation ≤ 90) ∧
    (1 / 2 ≤ (sliderDistance p v3).distance ∧ (sliderDistance p v3).distance ≤ 2) := by
  refine ⟨?_, ?_, ?_, ⟨hv1a, hv1b⟩, ⟨hv2a, hv2b⟩, ⟨hv3a, hv3b⟩⟩
  · simp only [gizmoAzimuth]
    have hm := jsMod_nonneg_lt ((if 90 - a < 0 then 90 - a + 360 else 90 - a) + 90) 360
      (by norm_num)
    constructor
    · have h1 : (0 : ℤ) ≤ jsRound (jsMod ((if 90 - a < 0 then 90 - a + 360 else 90 - a) + 90) 360) := by
        unfold jsRound
        apply Int.le_floor.mpr
        push_cast
        linarith [hm.1]
      exact_mod_cast h1
    · have h2 : jsRound (jsMod ((if 90 - a < 0 then 90 - a + 360 else 90 - a) + 90) 360) ≤ 360 := by
        unfold jsRound
        have h3 : ⌊jsMod ((if 90 - a < 0 then 90 - a + 360 else 90 - a) + 90) 360 + 1 / 2⌋ < 361 := by
          apply Int.floor_lt.mpr
          push_cast
          linarith [hm.2]
        omega
      exact_mod_cast h2
  · simp only [gizmoElevation]
    exact ⟨le_max_left _ _, max_le (by norm_num) (min_le_left _ _)⟩
  · simp only [gizmoDistance]
    have hw1 : (1 : ℚ) / 2 ≤ max (1 / 2) (min 2 (dist / 80)) := le_max_left _ _
    have hw2 : max ((1 : ℚ) / 2) (min 2 (dist / 80)) ≤ 2 :=
      max_le (by norm_num) (min_le_left _ _)
    set w := max ((1 : ℚ) / 2) (min 2 (dist / 80))
    constructor
    · have h1 : (50 : ℤ) ≤ ⌊100 * w + 1 / 2⌋ := by
        apply Int.le_floor.mpr
        push_cast
        linarith
      unfold round2
      have h1q : (50 : ℚ) ≤ (⌊100 * w + 1 / 2⌋ : ℤ) := by exact_mod_cast h1
      linarith
    · have h2 : ⌊100 * w + 1 / 2⌋ < 201 := by
        apply Int.floor_lt.mpr
        push_cast
        linarith
      unfold round2
      have h2b : ⌊100 * w + 1 / 2⌋ ≤ 200 := by omega
      have h2q : ((⌊100 * w + 1 / 2⌋ : ℤ) : ℚ) ≤ 200 := by exact_mod_cast h2b
      linarith

/-- Witness for C8 at concrete inputs inside the slider ranges. -/
theorem c8_camera_bounds_witness :
    (0 ≤ (gizmoAzimuth blankCamera 45).azimuth ∧
      (gizmoAzimuth blankCamera 45).azimuth ≤ 360) ∧
    (-30 ≤ (gizmoElevation blankCamera 10).elevation ∧
      (gizmoElevation blankCamera 10).elevation ≤ 90) ∧
    (1 / 2 ≤ (gizmoDistance blankCamera 100).distance ∧
      (gizmoDistance blankCamera 100).distance ≤ 2) ∧
    (0 ≤ (sliderAzimuth blankCamera 180).azimuth ∧
      (sliderAzimuth blankCamera 180).azimuth ≤ 360) ∧
    (-30 ≤ (sliderElevation blankCamera 30).elevation ∧
      (sliderElevation blankCamera 30).elevation ≤ 90) ∧
    (1 / 2 ≤ (sliderDistance blankCamera 1).distance ∧
      (sliderDistance blankCamera 1).distance ≤ 2) :=
  c8_camera_bounds blankCamera 45 10 100 180 30 1
    (by norm_num) (by norm_num) (by norm_num) (by norm_num) (by norm_num) (by norm_num)

/-! ## Version deletion (C10) -/

theorem filterIdxNe_high : ∀ (l : List Str) (j i : Nat), i < j → filterIdxNe l j i = l := by
  intro l
  induction l with
  | nil => intro j i h; rfl
  | cons x xs ih =>
    intro j i h
    simp only [filterIdxNe]
    rw [if_neg (ne_of_gt h), ih (j + 1) i (Nat.lt_succ_of_lt h)]

theorem filterIdxNe_succ : ∀ (l : List Str) (j i : Nat),
    filterIdxNe l (j + 1) (i + 1) = filterIdxNe l j i := by
  intro l
  induction l with
  | nil => intro j i; rfl
  | cons x xs ih =>
    intro j i
    simp only [filterIdxNe]
    by_cases h : j = i
    · subst h
      rw [if_pos rfl, if_pos rfl, ih (j + 1) j]
    · rw [if_neg (by omega), if_neg h, ih (j + 1) i]

theorem filterIdxNe_eraseIdx : ∀ (l : List Str) (i : Nat),
    filterIdxNe l 0 i = l.eraseIdx i := by
  intro l
  induction l with
  | nil => intro i; cases i <;> rfl
  | cons x xs ih =>
    intro i
    cases i with
    | zero =>
      simp only [filterIdxNe, if_pos rfl]
      rw [filterIdxNe_high xs 1 0 (by omega)]
      rfl
    | succ n =>
      simp only [filterIdxNe]
      rw [if_neg (by omega), filterIdxNe_succ xs 0 n, ih n]
      rfl

/-- Claim C10: deleting version `i` removes exactly that element from
`versions`, releases its URL exactly when it is a `blob:` URL, leaves
`imageUrl` unchanged unless it equals the deleted version, and in that case
reassigns it to the last remaining version (`getLast?` is `none` when no
versions remain). -/
theorem c10_deleteVersion (shot : Shot) (i : Nat) (h : i < shot.versions.length) :
    (handleDeleteVersion shot i).2.versions = shot.versions.eraseIdx i ∧
    (handleDeleteVersion shot i).1 =
      (if isBlobUrl (shot.versions.get ⟨i, h⟩) then [shot.versions.get ⟨i, h⟩] else []) ∧
    (shot.imageUrl ≠ some (shot.versions.get ⟨i, h⟩) →
      (handleDeleteVersion shot i).2.imageUrl = shot.imageUrl) ∧
    (shot.imageUrl = some (shot.versions.get ⟨i, h⟩) →
      (handleDeleteVersion shot i).2.imageUrl = (shot.versions.eraseIdx i).getLast?) := by
  have hget : shot.versions.getD i [] = shot.versions.get ⟨i, h⟩ := by
    simp [List.getD, List.getElem?_eq_getElem h]
  refine ⟨?_, ?_, ?_, ?_⟩
  · simp only [handleDeleteVersion, filterIdxNe_eraseIdx]
  · simp only [handleDeleteVersion]
    rw [hget]
  · intro hne
    simp only [handleDeleteVersion]
    cases hu : shot.imageUrl with
    | none => rfl
    | some u =>
      have hune : ¬ (u = shot.versions.getD i []) := by
        intro e
        exact hne (by rw [hu]; exact congrArg some (e.trans hget))
      show (if u = shot.versions.getD i [] then
          (filterIdxNe shot.versions 0 i).getLast? else some u) = some u
      rw [if_neg hune]
  · intro he
    simp only [handleDeleteVersion]
    cases hu : shot.imageUrl with
    | none => exact Option.noConfusion (hu.symm.trans he)
    | some u =>
      have hue : u = shot.versions.getD i [] := by
        have h2 : some u = some (shot.versions.get ⟨i, h⟩) := hu.symm.trans he
        exact (Option.some.inj h2).trans hget.symm
      show (if u = shot.versions.getD i [] then
          (filterIdxNe shot.versions 0 i).getLast? else some u) =
        (shot.versions.eraseIdx i).getLast?
      rw [if_pos hue, filterIdxNe_eraseIdx]

/-- A shot whose active image is also its first version, with a second
version remaining after deletion. -/
def shotC10 : Shot :=
  { blankShot with
    imageUrl := some (("blob:v1".data))
    versions := [("blob:v1".data), ("blob:v2".data)] }

/-- Witness for C10: deleting version `0` of `shotC10` removes it, releases
it, and reassigns the active image to the last remaining version. -/
theorem c10_deleteVersion_witness :
    (handleDeleteVersion shotC10 0).2.versions = shotC10.versions.eraseIdx 0 ∧
    (handleDeleteVersion shotC10 0).1 =
      (if isBlobUrl (shotC10.versions.get ⟨0, by decide⟩) then
        [shotC10.versions.get ⟨0, by decide⟩] else []) ∧
    (shotC10.imageUrl ≠ some (shotC10.versions.get ⟨0, by decide⟩) →
      (handleDeleteVersion shotC10 0).2.imageUrl = shotC10.imageUrl) ∧
    (shotC10.imageUrl = some (shotC10.versions.get ⟨0, by decide⟩) →
      (handleDeleteVersion shotC10 0).2.imageUrl =
        (shotC10.versions.eraseIdx 0).getLast?) :=
  c10_deleteVersion shotC10 0 (by decide)

/-! ## Handle release on shot deletion (C9) -/

/-- A shot whose active image URL is also held in `versions`, the common
state after a generation (the new URL is pushed to `versions` and set as
`imageUrl`). -/
def shotC9 : Shot :=
  { blankShot with
    id := ("s2".data)
    imageUrl := some (("blob:z".data))
    versions := [("blob:z".data)] }

/-- Claim C9 counterexample: deleting `shotC9` from a two-shot list calls
`URL.revokeObjectURL` on the handle `blob:z` twice — once for `imageUrl`
and once for its occurrence in `versions` — not exactly once. -/
theorem c9_counterexample :
    ((handleDeleteShot [blankShot, shotC9] (("s2".data))).1.count (("blob:z".data)) = 2) ∧
    ¬ ((handleDeleteShot [blankShot, shotC9] (("s2".data))).1.count (("blob:z".data)) = 1) := by
  decide

/-- The number of times `imageUrl` references the URL `u` (one or zero). -/
def imgCount (o : Option Str) (u : Str) : Nat :=
  match o with
  | some v => if v = u then 1 else 0
  | none => 0

/-- Claim C9 (amended): on deletion every `blob:` handle referenced by the
shot is released at least once, and it is released once per referencing
position — so a handle referenced by both `currentImage` and an element of
`versions` is released twice (revoking an already revoked object URL is a
no-op in the browser), not exactly once. -/
theorem c9_release_per_reference (shot : Shot) (u : Str) (hu : isBlobUrl u = true) :
    ((revokeShotResources shot).count u =
      imgCount shot.imageUrl u + shot.versions.count u +
        shot.referenceImages.count u) ∧
    ((shot.imageUrl = some u ∨ u ∈ shot.versions ∨ u ∈ shot.referenceImages) →
      1 ≤ (revokeShotResources shot).count u) ∧
    (shot.imageUrl = some u → u ∈ shot.versions →
      2 ≤ (revokeShotResources shot).count u) := by
  have himg : imgCount (some u) u = 1 := by
    simp [imgCount]
  have hcount : (revokeShotResources shot).count u =
      imgCount shot.imageUrl u + shot.versions.count u +
        shot.referenceImages.count u := by
    unfold revokeShotResources
    rw [List.count_append, List.count_append,
      List.count_filter hu, List.count_filter hu]
    congr 1
    congr 1
    cases shot.imageUrl with
    | none => rfl
    | some v =>
      show ((if isBlobUrl v = true then [v] else []).count u) = imgCount (some v) u
      by_cases hv : v = u
      · subst hv
        rw [if_pos hu, himg]
        simp
      · by_cases hb : isBlobUrl v = true
        · rw [if_pos hb]
          simp [List.count_cons, hv, imgCount]
        · rw [if_neg hb]
          simp [imgCount, hv]
  refine ⟨hcount, ?_, ?_⟩
  · intro hmem
    rw [hcount]
    rcases hmem with hi | hv | hr
    · rw [hi, himg]
      omega
    · have := List.count_pos_iff.mpr hv
      omega
    · have := List.count_pos_iff.mpr hr
      omega
  · intro hi hv
    rw [hcount, hi, himg]
    have := List.count_pos_iff.mpr hv
    omega

/-- Witness for C9 (amended) on `shotC9`: the handle is counted once for
`imageUrl` plus once for `versions`, is released at least once, and is
released at least twice. -/
theorem c9_release_witness :
    ((revokeShotResources shotC9).count (("blob:z".data)) =
      imgCount shotC9.imageUrl (("blob:z".data)) +
        shotC9.versions.count (("blob:z".data)) +
        shotC9.referenceImages.count (("blob:z".data))) ∧
    ((shotC9.imageUrl = some (("blob:z".data)) ∨
        ("blob:z".data) ∈ shotC9.versions ∨
        ("blob:z".data) ∈ shotC9.referenceImages) →
      1 ≤ (revokeShotResources shotC9).count (("blob:z".data))) ∧
    (shotC9.imageUrl = some (("blob:z".data)) →
      ("blob:z".data) ∈ shotC9.versions →
      2 ≤ (revokeShotResources shotC9).count (("blob:z".data))) :=
  c9_release_per_reference shotC9 (("blob:z".data)) (by decide)

/-! ## Atomic batch commit (C2) -/

theorem find?_map_replace (st : Store) (r : DurableShot)
    (h : st.any (fun x => x.id == r.id) = true) :
    (st.map (fun x => if x.id == r.id then r else x)).find?
      (fun x => x.id == r.id) = some r := by
  induction st with
  | nil => cases h
  | cons x xs ih =>
    rw [List.map_cons]
    by_cases hx : (x.id == r.id) = true
    · rw [if_pos hx, List.find?_cons_of_pos _ (by simp)]
    · rw [if_neg hx, List.find?_cons_of_neg _ (by simp [hx])]
      apply ih
      simpa [List.any_cons, hx] using h

theorem find?_map_replace_ne (st : Store) (r : DurableShot) (u : Str)
    (hne : r.id ≠ u) :
    (st.map (fun x => if x.id == r.id then r else x)).find?
      (fun x => x.id == u) = st.find? (fun x => x.id == u) := by
  induction st with
  | nil => rfl
  | cons x xs ih =>
    rw [List.map_cons]
    by_cases hx : (x.id == r.id) = true
    · have hxid : x.id = r.id := by simpa using hx
      rw [if_pos hx, List.find?_cons_of_neg _ (by simp [hne]),
        List.find?_cons_of_neg _ (by simp [hxid, hne])]
      exact ih
    · rw [if_neg hx]
      by_cases hxu : (x.id == u) = true
      · rw [@List.find?_cons_of_pos _ (fun y => y.id == u) x _ hxu,
          @List.find?_cons_of_pos _ (fun y => y.id == u) x _ hxu]
      · rw [@List.find?_cons_of_neg _ (fun y => y.id == u) x _ hxu,
          @List.find?_cons_of_neg _ (fun y => y.id == u) x _ hxu]
        exact ih

theorem lookupRow_putRow_self (st : Store) (r : DurableShot) :
    lookupRow (putRow st r) r.id = some r := by
  unfold putRow lookupRow
  by_cases h : st.any (fun x => x.id == r.id) = true
  · rw [if_pos h]
    exact find?_map_replace st r h
  · rw [if_neg h, List.find?_append]
    have h2 : st.find? (fun x => x.id == r.id) = none := by
      rw [List.find?_eq_none]
      intro x hx hpx
      exact h (List.any_eq_true.mpr ⟨x, hx, hpx⟩)
    rw [h2]
    simp [List.find?]

theorem lookupRow_putRow_ne (st : Store) (r : DurableShot) (u : Str)
    (hne : r.id ≠ u) : lookupRow (putRow st r) u = lookupRow st u := by
  unfold putRow lookupRow
  by_cases h : st.any (fun x => x.id == r.id) = true
  · rw [if_pos h]
    exact find?_map_replace_ne st r u hne
  · rw [if_neg h, List.find?_append]
    have hb : (r.id == u) = false := beq_eq_false_iff_ne.mpr hne
    have h2 : List.find? (fun x => x.id == u) [r] = none := by
      rw [List.find?_cons_of_neg _ (by simp [hb])]
      rfl
    rw [h2, Option.or_none]

theorem lookup_foldl_ne (rows : List DurableShot) : ∀ (st : Store) (u : Str),
    (∀ r ∈ rows, r.id ≠ u) →
    lookupRow (rows.foldl putRow st) u = lookupRow st u := by
  induction rows with
  | nil => intro st u _; rfl
  | cons r rs ih =>
    intro st u h
    rw [List.foldl_cons,
      ih (putRow st r) u (fun x hx => h x (List.mem_cons_of_mem _ hx))]
    exact lookupRow_putRow_ne st r u (h r (List.mem_cons_self _ _))

theorem lookup_foldl_mem (rows : List DurableShot) : ∀ (st : Store) (r : DurableShot),
    r ∈ rows → (rows.map (fun x => x.id)).Nodup →
    lookupRow (rows.foldl putRow st) r.id = some r := by
  induction rows with
  | nil => intro st r h; cases h
  | cons x xs ih =>
    intro st r hr hnd
    rw [List.foldl_cons]
    rw [List.map_cons, List.nodup_cons] at hnd
    rcases List.mem_cons.mp hr with he | hm
    · subst he
      rw [lookup_foldl_ne xs (putRow st r) r.id
        (fun q hq hqe => hnd.1 (hqe ▸ List.mem_map_of_mem _ hq))]
      exact lookupRow_putRow_self st r
    · exact ih (putRow st x) r hm hnd.2

/-- Claim C2: `saveShotsToDB` commits every row of the batch inside one
transaction — when the transaction completes, every given shot's serialized
row is retrievable from the store, and when it fails the store is exactly
as before, so a subsequent `getAll` never observes a proper subset of the
batch.  Distinct ids are assumed (with duplicate ids a later `put` of the
same batch overwrites the earlier one, by IndexedDB upsert semantics). -/
theorem c2_putAll_atomic (ρ : Str → Option Bytes) (commitOk : Bool)
    (shots : List Shot) (st : Store)
    (hids : (shots.map (fun s => s.id)).Nodup) :
    ((saveShotsToDB ρ commitOk shots st).1 = true →
      ∀ shot ∈ shots,
        lookupRow (getAll (saveShotsToDB ρ commitOk shots st).2) shot.id =
          some (serializeShotForDB ρ shot)) ∧
    ((saveShotsToDB ρ commitOk shots st).1 = false →
      getAll (saveShotsToDB ρ commitOk shots st).2 = getAll st) := by
  unfold saveShotsToDB getAll
  cases commitOk with
  | false => simp
  | true =>
    simp only [if_true]
    constructor
    · intro _ shot hshot
      have hrow : serializeShotForDB ρ shot ∈ shots.map (serializeShotForDB ρ) :=
        List.mem_map_of_mem _ hshot
      have hnd : ((shots.map (serializeShotForDB ρ)).map (fun x => x.id)).Nodup := by
        rw [List.map_map]
        exact hids
      exact lookup_foldl_mem (shots.map (serializeShotForDB ρ)) st
        (serializeShotForDB ρ shot) hrow hnd
    · intro h
      cases h

/-- Witness for C2: a two-shot batch with distinct ids commits both rows;
a failing transaction leaves the store unchanged. -/
theorem c2_putAll_witness :
    ((saveShotsToDB (fun _ => none) true [blankShot, shotC9] []).1 = true →
      ∀ shot ∈ [blankShot, shotC9],
        lookupRow (getAll (saveShotsToDB (fun _ => none) true [blankShot, shotC9] []).2)
            shot.id =
          some (serializeShotForDB (fun _ => none) shot)) ∧
    ((saveShotsToDB (fun _ => none) true [blankShot, shotC9] []).1 = false →
      getAll (saveShotsToDB (fun _ => none) true [blankShot, shotC9] []).2 =
        getAll []) :=
  c2_putAll_atomic (fun _ => none) true [blankShot, shotC9] [] (by decide)

/-! ## Legacy migration (C6) -/

/-- Claim C6: the cross-store legacy migration is idempotent — running it
twice in a row leaves the same storage as running it once (a successful run
deletes the legacy key, a failed parse or failed commit changes nothing) —
and when no legacy key is present it performs no writes and returns
`null`. -/
theorem c6_migration_idempotent (parse : Str → Option (List Shot))
    (ρ : Str → Option Bytes) (commitOk : Bool) (st : AppStorage) :
    ((migrateFromLocalStorage parse ρ commitOk
        (migrateFromLocalStorage parse ρ commitOk st).1).1 =
      (migrateFromLocalStorage parse ρ commitOk st).1) ∧
    (st.ls = none → migrateFromLocalStorage parse ρ commitOk st = (st, none)) := by
  constructor
  · cases hls : st.ls with
    | none => simp [migrateFromLocalStorage, hls]
    | some s =>
      cases hp : parse s with
      | none => simp [migrateFromLocalStorage, hls, hp]
      | some parsed =>
        cases commitOk with
        | false => simp [migrateFromLocalStorage, saveShotsToDB, hls, hp]
        | true => simp [migrateFromLocalStorage, saveShotsToDB, hls, hp]
  · intro hls
    simp [migrateFromLocalStorage, hls]

/-- Witness for C6 on a storage with a parsable legacy key and a committing
store, and the no-op clause at an empty storage. -/
theorem c6_migration_witness :
    ((migrateFromLocalStorage (fun _ => some [blankShot]) (fun _ => none) true
        (migrateFromLocalStorage (fun _ => some [blankShot]) (fun _ => none) true
          ⟨some ("x".data), []⟩).1).1 =
      (migrateFromLocalStorage (fun _ => some [blankShot]) (fun _ => none) true
        ⟨some ("x".data), []⟩).1) ∧
    ((⟨some ("x".data), []⟩ : AppStorage).ls = none →
      migrateFromLocalStorage (fun _ => some [blankShot]) (fun _ => none) true
          ⟨some ("x".data), []⟩ =
        (⟨some ("x".data), []⟩, none)) :=
  c6_migration_idempotent (fun _ => some [blankShot]) (fun _ => none) true
    ⟨some ("x".data), []⟩

/-! ## Serializer conversion (C3) -/

theorem forall2_map_self {α β : Type} (R : α → β → Prop) (f : α → β) :
    ∀ (l : List α), (∀ a ∈ l, R a (f a)) → List.Forall₂ R l (l.map f) := by
  intro l
  induction l with
  | nil => intro _; exact List.Forall₂.nil
  | cons x xs ih =>
    intro h
    rw [List.map_cons]
    exact List.Forall₂.cons (h x (List.mem_cons_self _ _))
      (ih (fun a ha => h a (List.mem_cons_of_mem _ ha)))

/-- The `data:` URI used in the C3 example records. -/
def dataUriC3 : Str := ("data:image/png;base64,QQ==".data)

/-- A shot holding a `data:` URI as its active image and as a reference
image, and a `blob:` handle among its versions. -/
def shotC3 : Shot :=
  { blankShot with
    imageUrl := some dataUriC3
    versions := [("blob:a".data)]
    referenceImages := [dataUriC3] }

/-- The fetch environment for the C3 example: only `blob:a` resolves. -/
def rhoC3 : Str → Option Bytes :=
  fun s => if s == ("blob:a".data) then some [7] else none

/-- Claim C3 counterexample: a `data:` URI in `imageUrl` is not decoded into
a raw binary object by `serializeShotForDB` — it is stored as the original
string (only `referenceImages` elements get the `data:` decoding). -/
theorem c3_counterexample :
    (serializeShotForDB rhoC3 shotC3).imageUrl = some (ImgVal.str dataUriC3) ∧
    ((serializeShotForDB rhoC3 shotC3).imageUrl.map ImgVal.isBlob) = some false := by
  constructor
  · rfl
  · rfl

/-- Claim C3 (amended): `serializeShotForDB` resolves `blob:` handles to raw
binary objects in all three image positions (a handle whose fetch fails is
left unconverted), decodes `data:` URIs through the Binary Codec only in
`referenceImages` — a `data:` string in `imageUrl` or `versions` is left as
a string — and an absent `imageUrl` remains absent. -/
theorem c3_serialize_conversion (ρ : Str → Option Bytes) (shot : Shot) :
    (shot.imageUrl = none → (serializeShotForDB ρ shot).imageUrl = none) ∧
    (∀ s b, shot.imageUrl = some s → isBlobUrl s = true → ρ s = some b →
      (serializeShotForDB ρ shot).imageUrl = some (ImgVal.blob b)) ∧
    (∀ s, shot.imageUrl = some s → isBlobUrl s = false →
      (serializeShotForDB ρ shot).imageUrl = some (ImgVal.str s)) ∧
    List.Forall₂ (fun v w =>
        (isBlobUrl v = true → ∀ b, ρ v = some b → w = ImgVal.blob b) ∧
        (isBlobUrl v = false → w = ImgVal.str v))
      shot.versions (serializeShotForDB ρ shot).versions ∧
    List.Forall₂ (fun v w =>
        (isBlobUrl v = true → ∀ b, ρ v = some b → w = ImgVal.blob b) ∧
        (isBlobUrl v = false → isDataUrl v = true → w = ImgVal.blob (base64ToBlob v)) ∧
        (isBlobUrl v = false → isDataUrl v = false → w = ImgVal.str v))
      shot.referenceImages (serializeShotForDB ρ shot).referenceImages := by
  refine ⟨?_, ?_, ?_, ?_, ?_⟩
  · intro h
    simp [serializeShotForDB, h]
  · intro s b hs hb hρ
    simp [serializeShotForDB, hs, serializeImage, hb, hρ]
  · intro s hs hb
    simp [serializeShotForDB, hs, serializeImage, hb]
  · apply forall2_map_self
    intro v _
    constructor
    · intro hb b hρ
      simp [serializeImage, hb, hρ]
    · intro hb
      simp [serializeImage, hb]
  · apply forall2_map_self
    intro v _
    refine ⟨?_, ?_, ?_⟩
    · intro hb b hρ
      simp [serializeRef, hb, hρ]
    · intro hb hd
      simp [serializeRef, hb, hd]
    · intro hb hd
      simp [serializeRef, hb, hd]

/-- Witness for C3 on `shotC3`: the `data:` active image stays a string,
the `blob:` version resolves to its bytes, and the `data:` reference image
decodes through the codec. -/
theorem c3_serialize_witness :
    (serializeShotForDB rhoC3 shotC3).imageUrl = some (ImgVal.str dataUriC3) ∧
    List.Forall₂ (fun v w =>
        (isBlobUrl v = true → ∀ b, rhoC3 v = some b → w = ImgVal.blob b) ∧
        (isBlobUrl v = false → w = ImgVal.str v))
      shotC3.versions (serializeShotForDB rhoC3 shotC3).versions ∧
    List.Forall₂ (fun v w =>
        (isBlobUrl v = true → ∀ b, rhoC3 v = some b → w = ImgVal.blob b) ∧
        (isBlobUrl v = false → isDataUrl v = true → w = ImgVal.blob (base64ToBlob v)) ∧
        (isBlobUrl v = false → isDataUrl v = false → w = ImgVal.str v))
      shotC3.referenceImages (serializeShotForDB rhoC3 shotC3).referenceImages :=
  ⟨(c3_serialize_conversion rhoC3 shotC3).2.2.1 dataUriC3 rfl (by decide),
   (c3_serialize_conversion rhoC3 shotC3).2.2.2.1,
   (c3_serialize_conversion rhoC3 shotC3).2.2.2.2⟩

/-! ## Round trip (C1)

Freshness of object URLs: each minted name is an injective function of the
mint counter, so a URL minted during deserialization is distinct from every
URL minted earlier, and its registry entry is never shadowed. -/

theorem mintName_inj {m n : Nat} (h : mintName m = mintName n) : m = n := by
  have hl := congrArg List.length h
  rw [mintName, mintName, List.length_append, List.length_append,
    List.length_replicate, List.length_replicate] at hl
  omega

/-- The URL `u` was minted before the registry reached state `st`. -/
def OldName (st : MintSt) (u : Str) : Prop :=
  ∃ k, u = mintName k ∧ k < st.ctr

/-- The URL `u` resolves to the bytes `b` in state `st`, and was minted
within the counted range (so later mints cannot shadow it). -/
def ResolvesTo (st : MintSt) (u : Str) (b : Bytes) : Prop :=
  resolveSt st u = some b ∧ OldName st u

theorem mintOne_preserve (v : ImgVal) (st : MintSt) (u : Str) (b : Bytes)
    (h : ResolvesTo st u b) : ResolvesTo (mintOne v st).2 u b := by
  obtain ⟨hres, k, hk, hlt⟩ := h
  cases v with
  | str s => exact ⟨hres, k, hk, hlt⟩
  | blob b2 =>
    constructor
    · show resolveSt ⟨st.ctr + 1, (mintName st.ctr, b2) :: st.tbl⟩ u = some b
      unfold resolveSt
      rw [List.find?_cons_of_neg]
      · exact hres
      · intro hbeq
        have he : mintName st.ctr = u := by simpa using hbeq
        rw [hk] at he
        exact absurd (mintName_inj he) (by omega)
    · exact ⟨k, hk, by show k < st.ctr + 1; omega⟩

theorem mintList_preserve (vs : List ImgVal) : ∀ (st : MintSt) (u : Str) (b : Bytes),
    ResolvesTo st u b → ResolvesTo (mintList vs st).2 u b := by
  induction vs with
  | nil => intro st u b h; exact h
  | cons v vs ih =>
    intro st u b h
    exact ih (mintOne v st).2 u b (mintOne_preserve v st u b h)

theorem mintOne_blob_spec (b : Bytes) (st : MintSt) :
    ResolvesTo (mintOne (.blob b) st).2 (mintOne (.blob b) st).1 b := by
  constructor
  · show resolveSt ⟨st.ctr + 1, (mintName st.ctr, b) :: st.tbl⟩ (mintName st.ctr) = some b
    unfold resolveSt
    rw [List.find?_cons_of_pos _ (by simp)]
    rfl
  · exact ⟨st.ctr, rfl, Nat.lt_succ_self _⟩

theorem mintList_spec (vs : List ImgVal) : ∀ (st : MintSt),
    List.Forall₂ (fun v u => ∀ b, v = ImgVal.blob b → ResolvesTo (mintList vs st).2 u b)
      vs (mintList vs st).1 := by
  induction vs with
  | nil => intro st; exact List.Forall₂.nil
  | cons v vs ih =>
    intro st
    refine List.Forall₂.cons ?_ ?_
    · intro b hb
      subst hb
      exact mintList_preserve vs (mintOne (.blob b) st).2 (mintOne (.blob b) st).1 b
        (mintOne_blob_spec b st)
    · exact ih (mintOne v st).2

theorem forall2_imp_mem {α β : Type} {R S : α → β → Prop} :
    ∀ {l1 : List α} {l2 : List β}, List.Forall₂ R l1 l2 →
    (∀ a ∈ l1, ∀ b, R a b → S a b) → List.Forall₂ S l1 l2 := by
  intro l1 l2 h
  induction h with
  | nil => intro _; exact List.Forall₂.nil
  | cons hr _ ih =>
    intro hmem
    exact List.Forall₂.cons (hmem _ (List.mem_cons_self _ _) _ hr)
      (ih (fun a ha b hr2 => hmem a (List.mem_cons_of_mem _ ha) b hr2))

/-- Specification of `deserializeShotFromDB`: non-image fields are copied,
an absent image stays absent, and every raw binary object is minted into a
fresh object URL that resolves, in the final registry state, to exactly the
stored bytes. -/
theorem deserialize_spec (d : DurableShot) (st0 : MintSt) :
    ((deserializeShotFromDB d st0).1.id = d.id ∧
     (deserializeShotFromDB d st0).1.isGenerating = d.isGenerating) ∧
    (d.imageUrl = none → (deserializeShotFromDB d st0).1.imageUrl = none) ∧
    (∀ b, d.imageUrl = some (ImgVal.blob b) →
      ∃ u, (deserializeShotFromDB d st0).1.imageUrl = some u ∧
        ResolvesTo (deserializeShotFromDB d st0).2 u b) ∧
    List.Forall₂ (fun v u => ∀ b, v = ImgVal.blob b →
        ResolvesTo (deserializeShotFromDB d st0).2 u b)
      d.versions (deserializeShotFromDB d st0).1.versions ∧
    List.Forall₂ (fun v u => ∀ b, v = ImgVal.blob b →
        ResolvesTo (deserializeShotFromDB d st0).2 u b)
      d.referenceImages (deserializeShotFromDB d st0).1.referenceImages := by
  refine ⟨⟨rfl, rfl⟩, ?_, ?_, ?_, ?_⟩
  · intro h
    show (mintOpt d.imageUrl st0).1 = none
    rw [h]
    rfl
  · intro b hb
    refine ⟨(mintOpt d.imageUrl st0).1.getD [], ?_, ?_⟩
    · show (mintOpt d.imageUrl st0).1 = some ((mintOpt d.imageUrl st0).1.getD [])
      rw [hb]
      rfl
    · show ResolvesTo
        (mintList d.referenceImages
          (mintList d.versions (mintOpt d.imageUrl st0).2).2).2
        ((mintOpt d.imageUrl st0).1.getD []) b
      have h1 : ResolvesTo (mintOpt d.imageUrl st0).2
          ((mintOpt d.imageUrl st0).1.getD []) b := by
        rw [hb]
        exact mintOne_blob_spec b st0
      exact mintList_preserve d.referenceImages _ _ b
        (mintList_preserve d.versions _ _ b h1)
  · show List.Forall₂ _ d.versions (mintList d.versions (mintOpt d.imageUrl st0).2).1
    refine forall2_imp_mem (mintList_spec d.versions (mintOpt d.imageUrl st0).2) ?_
    intro v _ u hR b hb
    exact mintList_preserve d.referenceImages _ _ b (hR b hb)
  · exact mintList_spec d.referenceImages (mintList d.versions (mintOpt d.imageUrl st0).2).2

/-- Claim C1: for a shot whose image fields all hold resolvable `blob:`
handles, serializing then deserializing yields a shot with identical
non-image fields, and image handles that resolve — in the object URL
registry produced by deserialization — to exactly the bytes the original
handles resolved to. -/
theorem c1_roundTrip (ρ : Str → Option Bytes) (shot : Shot) (st0 : MintSt)
    (himg : ∀ s, shot.imageUrl = some s → isBlobUrl s = true ∧ (ρ s).isSome = true)
    (hver : ∀ s ∈ shot.versions, isBlobUrl s = true ∧ (ρ s).isSome = true)
    (href : ∀ s ∈ shot.referenceImages, isBlobUrl s = true ∧ (ρ s).isSome = true) :
    ((deserializeShotFromDB (serializeShotForDB ρ shot) st0).1.id = shot.id ∧
     (deserializeShotFromDB (serializeShotForDB ρ shot) st0).1.name = shot.name ∧
     (deserializeShotFromDB (serializeShotForDB ρ shot) st0).1.script = shot.script ∧
     (deserializeShotFromDB (serializeShotForDB ρ shot) st0).1.enhancedScript =
       shot.enhancedScript ∧
     (deserializeShotFromDB (serializeShotForDB ρ shot) st0).1.aiPromptEn =
       shot.aiPromptEn ∧
     (deserializeShotFromDB (serializeShotForDB ρ shot) st0).1.aiPromptCn =
       shot.aiPromptCn ∧
     (deserializeShotFromDB (serializeShotForDB ρ shot) st0).1.aspectRatio =
       shot.aspectRatio ∧
     (deserializeShotFromDB (serializeShotForDB ρ shot) st0).1.cameraParams =
       shot.cameraParams ∧
     (deserializeShotFromDB (serializeShotForDB ρ shot) st0).1.seed = shot.seed ∧
     (deserializeShotFromDB (serializeShotForDB ρ shot) st0).1.model = shot.model ∧
     (deserializeShotFromDB (serializeShotForDB ρ shot) st0).1.isGrid = shot.isGrid) ∧
    (shot.imageUrl = none →
      (deserializeShotFromDB (serializeShotForDB ρ shot) st0).1.imageUrl = none) ∧
    (∀ s, shot.imageUrl = some s →
      ∃ u, (deserializeShotFromDB (serializeShotForDB ρ shot) st0).1.imageUrl = some u ∧
        resolveSt (deserializeShotFromDB (serializeShotForDB ρ shot) st0).2 u = ρ s ∧
        (ρ s).isSome = true) ∧
    List.Forall₂ (fun s u =>
        resolveSt (deserializeShotFromDB (serializeShotForDB ρ shot) st0).2 u = ρ s ∧
        (ρ s).isSome = true)
      shot.versions
      (deserializeShotFromDB (serializeShotForDB ρ shot) st0).1.versions ∧
    List.Forall₂ (fun s u =>
        resolveSt (deserializeShotFromDB (serializeShotForDB ρ shot) st0).2 u = ρ s ∧
        (ρ s).isSome = true)
      shot.referenceImages
      (deserializeShotFromDB (serializeShotForDB ρ shot) st0).1.referenceImages := by
  have hspec := deserialize_spec (serializeShotForDB ρ shot) st0
  refine ⟨⟨rfl, rfl, rfl, rfl, rfl, rfl, rfl, rfl, rfl, rfl, rfl⟩, ?_, ?_, ?_, ?_⟩
  · intro h
    exact hspec.2.1 (by rw [show (serializeShotForDB ρ shot).imageUrl =
      shot.imageUrl.map (serializeImage ρ) from rfl, h]; rfl)
  · intro s hs
    obtain ⟨hb, hsome⟩ := himg s hs
    obtain ⟨b, hρb⟩ := Option.isSome_iff_exists.mp hsome
    have hser : (serializeShotForDB ρ shot).imageUrl = some (ImgVal.blob b) := by
      show shot.imageUrl.map (serializeImage ρ) = some (ImgVal.blob b)
      rw [hs]
      simp [serializeImage, hb, hρb]
    obtain ⟨u, hu, hres, _⟩ := hspec.2.2.1 b hser
    exact ⟨u, hu, hres.trans hρb.symm, hsome⟩
  · have hmap : (serializeShotForDB ρ shot).versions =
        shot.versions.map (serializeImage ρ) := rfl
    have h1 := hspec.2.2.2.1
    rw [hmap] at h1
    have h2 := List.forall₂_map_left_iff.mp h1
    refine forall2_imp_mem h2 ?_
    intro s hs u hR
    obtain ⟨hb, hsome⟩ := hver s hs
    obtain ⟨b, hρb⟩ := Option.isSome_iff_exists.mp hsome
    have hser : serializeImage ρ s = ImgVal.blob b := by
      simp [serializeImage, hb, hρb]
    obtain ⟨hres, _⟩ := hR b hser
    exact ⟨hres.trans hρb.symm, hsome⟩
  · have hmap : (serializeShotForDB ρ shot).referenceImages =
        shot.referenceImages.map (serializeRef ρ) := rfl
    have h1 := hspec.2.2.2.2
    rw [hmap] at h1
    have h2 := List.forall₂_map_left_iff.mp h1
    refine forall2_imp_mem h2 ?_
    intro s hs u hR
    obtain ⟨hb, hsome⟩ := href s hs
    obtain ⟨b, hρb⟩ := Option.isSome_iff_exists.mp hsome
    have hser : serializeRef ρ s = ImgVal.blob b := by
      simp [serializeRef, hb, hρb]
    obtain ⟨hres, _⟩ := hR b hser
    exact ⟨hres.trans hρb.symm, hsome⟩

/-- A shot holding three distinct resolvable handles across the three image
positions (one shared between `imageUrl` and `versions`). -/
def shotW1 : Shot :=
  { blankShot with
    imageUrl := some (("blob:a".data))
    versions := [("blob:a".data), ("blob:b".data)]
    referenceImages := [("blob:c".data)] }

/-- The fetch environment for the C1 witness. -/
def rhoW1 : Str → Option Bytes :=
  fun s =>
    if s == ("blob:a".data) then some [1]
    else if s == ("blob:b".data) then some [2, 3]
    else if s == ("blob:c".data) then some [4]
    else none

/-- Witness for C1 on `shotW1`: the reloaded active image and every
reloaded version resolve to the original bytes. -/
theorem c1_roundTrip_witness :
    (∃ u, (deserializeShotFromDB (serializeShotForDB rhoW1 shotW1) ⟨0, []⟩).1.imageUrl =
        some u ∧
      resolveSt (deserializeShotFromDB (serializeShotForDB rhoW1 shotW1) ⟨0, []⟩).2 u =
        rhoW1 (("blob:a".data)) ∧
      (rhoW1 (("blob:a".data))).isSome = true) ∧
    List.Forall₂ (fun s u =>
        resolveSt (deserializeShotFromDB (serializeShotForDB rhoW1 shotW1) ⟨0, []⟩).2 u =
          rhoW1 s ∧
        (rhoW1 s).isSome = true)
      shotW1.versions
      (deserializeShotFromDB (serializeShotForDB rhoW1 shotW1) ⟨0, []⟩).1.versions :=
  ⟨(c1_roundTrip rhoW1 shotW1 ⟨0, []⟩
      (fun s hs => by cases hs; exact ⟨by decide, by decide⟩)
      (by decide) (by decide)).2.2.1 (("blob:a".data)) rfl,
   (c1_roundTrip rhoW1 shotW1 ⟨0, []⟩
      (fun s hs => by cases hs; exact ⟨by decide, by decide⟩)
      (by decide) (by decide)).2.2.2.1⟩

end Storyboard
